import Mathlib

/-!
# Verification of the rusteze process-lifecycle core

Shallow embedding of the process manager and schedulers of the rusteze
kernel, together with proofs and refutations of the specified properties.

Two independent implementations exist in the source and both are embedded:

* `src/process_manager.rs` : a `ProcessManager` whose scheduler holds a
  vector `processes` and a cursor `current_index` (the scheduler struct's
  two fields are accessed directly by the manager throughout that file, so
  they are inlined into the manager record here).
* `src/src/process.rs` : a `RoundRobinScheduler` holding `current_process`
  and `ready_queue`, wrapped by a second manager type (named `ProcManager`
  here to avoid a clash), plus the `ContextSwitcher` primitives.

Machine integers are modelled as `Nat`, with overflow made explicit where
the source performs arithmetic: the `u32` PID counter `next_pid` is the one
integer the source increments, so its `+= 1` is modelled as
`(next_pid + 1) % 2^32` (the wrapping semantics of a release-built kernel).
Registers (`u64`/`u16`) are only ever copied, never computed with, and the
`usize` cursor and queue lengths stay far below `2^64` in every state the
claims quantify over (one list entry per spawn), so those are plain `Nat`.
-/

/-! ## Embedding of `src/process_manager.rs` -/

/-- Process states from `src/process_manager.rs` (five variants, including
`Terminated`). -/
inductive ProcessState where
  | Ready
  | Running
  | Blocked
  | Zombie
  | Terminated
deriving DecidableEq, Repr

/-- CPU context of a kernel thread. Modelled from the spec: the `Context`
type used by `src/process_manager.rs` (field `pcb.context` with method
`set_initial_state(entry_point, stack_ptr)`) is not under `src/`; per §4.2
of the spec it records the instruction pointer (`entry_address`) and the
stack pointer (`stack_top`). -/
structure Context where
  rip : Nat
  rsp : Nat
deriving DecidableEq, Repr

/-- `set_initial_state(entry_point, stack_ptr)`: records the entry point as
instruction pointer and the stack top as stack pointer (modelled from the
spec, §4.2). -/
def Context.set_initial_state (_c : Context) (entry stack : Nat) : Context :=
  { rip := entry, rsp := stack }

/-- Process control block used by `src/process_manager.rs`: pid, state and
an embedded context. -/
structure ProcessControlBlock where
  pid : Nat
  state : ProcessState
  context : Context
deriving DecidableEq, Repr

/-- `ProcessControlBlock::new()` as used by `spawn_kernel_thread`. Its body
is not under `src/`; it is modelled as the default constructor of the
sibling PCB type (`src/src/process.rs`, `Default for ProcessControlBlock`):
pid `0`, state `Ready`, all context fields zero. -/
def ProcessControlBlock.new : ProcessControlBlock :=
  { pid := 0, state := ProcessState.Ready, context := { rip := 0, rsp := 0 } }

/-- The `ProcessManager` of `src/process_manager.rs`. The
`RoundRobinScheduler` it owns is used only through its two fields
`processes` and `current_index`, which are inlined here; `new()` gives the
empty queue with cursor `0` and `next_pid = 1`. -/
structure ProcessManager where
  processes : List ProcessControlBlock
  current_index : Nat
  next_pid : Nat
deriving DecidableEq, Repr

/-- One past the largest `u32` value: `next_pid` is a `u32` and wraps at
this modulus. -/
def u32Mod : Nat := 4294967296

/-- `ProcessManager::new()`. -/
def ProcessManager.new : ProcessManager :=
  { processes := [], current_index := 0, next_pid := 1 }

/-- `ProcessManager::init()`: resets the PID counter to 1 and clears the
process list (the cursor is left untouched by the source). -/
def ProcessManager.init (m : ProcessManager) : ProcessManager :=
  { m with next_pid := 1, processes := [] }

/-- `ProcessManager::spawn_kernel_thread`: builds a fresh PCB, initializes
its context from the entry point and an allocated stack (the stack address
is a parameter here, standing for the pointer returned by
`allocate_kernel_stack`), allocates the next PID, resets the cursor to 0
when the queue was empty, sets the PCB state to `Running`, pushes it, and
returns the PID.  Note the allocated `pid` is never written into the PCB,
exactly as in the source.  `next_pid` is a `u32`: the source's
`self.next_pid += 1` wraps to 0 after `u32::MAX`, modelled by the explicit
`% u32Mod`. -/
def ProcessManager.spawn_kernel_thread (m : ProcessManager) (entry stack : Nat) :
    Nat × ProcessManager :=
  let pcb := ProcessControlBlock.new
  let pcb := { pcb with context := pcb.context.set_initial_state entry stack }
  let pid := m.next_pid
  let m := { m with next_pid := (m.next_pid + 1) % u32Mod }
  let m := if m.processes.isEmpty then { m with current_index := 0 } else m
  let pcb := { pcb with state := ProcessState.Running }
  (pid, { m with processes := m.processes ++ [pcb] })

/-- Overwrite the state of the list entry at index `i` (the source writes
`self.scheduler.processes[index].state = ...` through a mutable borrow;
`exit` only calls this with an in-bounds index obtained from the position
search). -/
def setStateAt : List ProcessControlBlock → Nat → ProcessState → List ProcessControlBlock
  | [], _, _ => []
  | pcb :: rest, 0, st => { pcb with state := st } :: rest
  | pcb :: rest, i + 1, st => pcb :: setStateAt rest i st

/-- State of the entry at index `j`, as a Boolean test against `Ready`
(the loop body of `exit` tests
`matches!(state, Ready)` after excluding `Zombie | Terminated`, which is
equivalent to `state == Ready`). -/
def readyAt (l : List ProcessControlBlock) (j : Nat) : Bool :=
  match l.get? j with
  | some pcb => pcb.state == ProcessState.Ready
  | none => false

/-- `ProcessManager::exit(pid)`: finds the PCB with the given pid, marks it
`Zombie`; when it was the entry at the cursor, scans the queue circularly
starting just after the cursor for a `Ready` entry and moves the cursor
there, falling back to index 0 when none exists.  Returns `false` when no
PCB carries the pid. -/
def ProcessManager.exit (m : ProcessManager) (p : Nat) : Bool × ProcessManager :=
  match m.processes.findIdx? (fun pcb => pcb.pid == p) with
  | none => (false, m)
  | some index =>
    let ps := setStateAt m.processes index ProcessState.Zombie
    if index = m.current_index then
      let n := ps.length
      let start_idx := (m.current_index + 1) % n
      match (List.range n).find? (fun i => readyAt ps ((start_idx + i) % n)) with
      | some i =>
        (true, { m with processes := ps, current_index := (start_idx + i) % n })
      | none => (true, { m with processes := ps, current_index := 0 })
    else
      (true, { m with processes := ps })

/-- Backwards sweep of `reap_zombies`: removing while iterating from the
highest index down is equivalent to this right-to-left recursion; the
reaped pids come out highest-index first, exactly as in the source. -/
def reapAux : List ProcessControlBlock → List ProcessControlBlock × List Nat
  | [] => ([], [])
  | pcb :: rest =>
    let r := reapAux rest
    if pcb.state == ProcessState.Zombie then (r.1, r.2 ++ [pcb.pid])
    else (pcb :: r.1, r.2)

/-- `ProcessManager::reap_zombies()`: removes every `Zombie` PCB and
returns their pids (in decreasing index order); the cursor is not
adjusted. -/
def ProcessManager.reap_zombies (m : ProcessManager) : List Nat × ProcessManager :=
  let r := reapAux m.processes
  (r.2, { m with processes := r.1 })

/-- `ProcessManager::process_count()`: number of PCBs that are neither
`Zombie` nor `Terminated`. -/
def ProcessManager.process_count (m : ProcessManager) : Nat :=
  (m.processes.filter (fun pcb =>
    !(pcb.state == ProcessState.Zombie || pcb.state == ProcessState.Terminated))).length

/-- `ProcessManager::get_current()`: `none` on the empty queue, otherwise
the entry at the cursor.  Rust indexes the vector directly, which panics
out of bounds; the panic is modelled as `none` on a non-empty queue. -/
def ProcessManager.get_current (m : ProcessManager) : Option ProcessControlBlock :=
  if m.processes.isEmpty then none
  else m.processes.get? m.current_index

/-! ## Embedding of `src/src/process.rs` -/

/-- Process states from `src/src/process.rs` (four variants; this sibling
enum has no `Terminated`). -/
inductive ProcState where
  | Ready
  | Running
  | Blocked
  | Zombie
deriving DecidableEq, Repr

/-- `ProcessControlBlock` from `src/src/process.rs`: pid, state, and the
flat register fields (`u64`/`u16`/`usize` registers as `Nat`; no
arithmetic is ever performed on them). Structural equality models the
`==` comparisons the source performs on whole PCBs. -/
structure PCB where
  pid : Nat
  state : ProcState
  rsp : Nat
  rip : Nat
  rax : Nat
  rbx : Nat
  rcx : Nat
  rdx : Nat
  rsi : Nat
  rdi : Nat
  rbp : Nat
  cs : Nat
  ds : Nat
  es : Nat
  fs : Nat
  gs : Nat
  ss : Nat
deriving DecidableEq, Repr

/-- `Default for ProcessControlBlock` (`src/src/process.rs`): pid 0, state
`Ready`, every register zero. -/
def PCB.default : PCB :=
  { pid := 0, state := ProcState.Ready, rsp := 0, rip := 0,
    rax := 0, rbx := 0, rcx := 0, rdx := 0, rsi := 0, rdi := 0, rbp := 0,
    cs := 0, ds := 0, es := 0, fs := 0, gs := 0, ss := 0 }

/-- `RoundRobinScheduler` from `src/src/process.rs`: an optional current
process and a ready queue. -/
structure RoundRobinScheduler where
  current_process : Option PCB
  ready_queue : List PCB
deriving DecidableEq, Repr

/-- `RoundRobinScheduler::new()`. -/
def RoundRobinScheduler.new : RoundRobinScheduler :=
  { current_process := none, ready_queue := [] }

/-- `RoundRobinScheduler::add(pcb)`: forces the state to `Ready`, then
pushes the PCB unless a structurally identical one is already in the
queue (`Vec::contains` on the whole record); the duplicate case is a
silent no-op. -/
def RoundRobinScheduler.add (s : RoundRobinScheduler) (pcb : PCB) :
    RoundRobinScheduler :=
  let proc := { pcb with state := ProcState.Ready }
  if s.ready_queue.contains proc then s
  else { s with ready_queue := s.ready_queue ++ [proc] }

/-- `RoundRobinScheduler::get_next_process()`: `none` on the empty queue;
otherwise the position of the current process in the queue is looked up by
structural equality (comparing against the all-zero default PCB when no
current process is set), `current` becomes that position plus one (or 0
when no entry matches), and the entry at `current % len` is removed and
returned.  No state filtering of any kind is performed. -/
def RoundRobinScheduler.get_next_process (s : RoundRobinScheduler) :
    Option PCB × RoundRobinScheduler :=
  if s.ready_queue.isEmpty then (none, s)
  else
    let cur := s.current_process.getD PCB.default
    let current :=
      match s.ready_queue.findIdx? (fun q => q == cur) with
      | some i => i + 1
      | none => 0
    let next_idx := current % s.ready_queue.length
    (s.ready_queue.get? next_idx,
      { s with ready_queue := s.ready_queue.eraseIdx next_idx })

/-- `RoundRobinScheduler::set_current(pcb)`. -/
def RoundRobinScheduler.set_current (s : RoundRobinScheduler) (pcb : PCB) :
    RoundRobinScheduler :=
  { s with current_process := some pcb }

/-- The `ProcessManager` of `src/src/process.rs` (named `ProcManager` here
because the manager of `src/process_manager.rs` already carries the source
name): an optional current PCB plus the round-robin scheduler. -/
structure ProcManager where
  current_pcb : Option PCB
  scheduler : RoundRobinScheduler
deriving DecidableEq, Repr

/-- `ProcessManager::new()` from `src/src/process.rs`. -/
def ProcManager.new : ProcManager :=
  { current_pcb := none, scheduler := RoundRobinScheduler.new }

/-- `ProcessManager::add_process`. -/
def ProcManager.add_process (m : ProcManager) (pcb : PCB) : ProcManager :=
  { m with scheduler := m.scheduler.add pcb }

/-- `ProcessManager::get_next_process` from `src/src/process.rs`: pulls the
next PCB from the scheduler, records it as `current_pcb`, and tells the
scheduler it is now current. -/
def ProcManager.get_next_process (m : ProcManager) : Option PCB × ProcManager :=
  match m.scheduler.get_next_process with
  | (none, s') => (none, { m with scheduler := s' })
  | (some proc, s') =>
    (some proc, { current_pcb := some proc, scheduler := s'.set_current proc })

/-- Run `k` consecutive `ProcessManager::get_next_process` calls (the
schedule operation of `src/src/process.rs`), collecting the returned PCBs
in order. -/
def runSched : ProcManager → Nat → List PCB × ProcManager
  | m, 0 => ([], m)
  | m, k + 1 =>
    match m.get_next_process with
    | (none, m') => ([], m')
    | (some p, m') =>
      let r := runSched m' k
      (p :: r.1, r.2)

/-- A manager whose scheduler holds exactly the queue `l` and no current
process: the state reached from `ProcessManager::new()` once the queue
contains the given PCRs and nothing has been scheduled yet. -/
def initialSched (l : List PCB) : ProcManager :=
  { current_pcb := none,
    scheduler := { current_process := none, ready_queue := l } }

/-! ## The context-switch primitive (`ContextSwitcher`, `src/src/process.rs`)

The live CPU register state is made explicit as a record, and the inline
assembly of `save_context` / `restore_context` as the register copies it
performs: `save_context` stores `rax rbx rcx rdx rsi rdi rsp`, the
instruction pointer, and the six segment registers into the PCB (it never
touches `rbp`); `restore_context` loads `rax rbx rcx rdx rsi rdi rsp` and
jumps to the saved instruction pointer (it restores neither segment
registers nor `rbp`). -/

/-- The physical CPU register file manipulated by the context switcher. -/
structure Cpu where
  rax : Nat
  rbx : Nat
  rcx : Nat
  rdx : Nat
  rsi : Nat
  rdi : Nat
  rbp : Nat
  rsp : Nat
  rip : Nat
  cs : Nat
  ds : Nat
  es : Nat
  fs : Nat
  gs : Nat
  ss : Nat
deriving DecidableEq, Repr

/-- `ContextSwitcher::save_context(pcb)`: captures the executing register
state into the PCB (general-purpose registers except `rbp`, the stack and
instruction pointers, and the segment registers). -/
def ContextSwitcher.save_context (cpu : Cpu) (pcb : PCB) : PCB :=
  { pcb with
    rax := cpu.rax, rbx := cpu.rbx, rcx := cpu.rcx, rdx := cpu.rdx,
    rsi := cpu.rsi, rdi := cpu.rdi, rsp := cpu.rsp, rip := cpu.rip,
    cs := cpu.cs, ds := cpu.ds, es := cpu.es,
    fs := cpu.fs, gs := cpu.gs, ss := cpu.ss }

/-- `ContextSwitcher::restore_context(pcb)`: loads the saved
general-purpose registers (except `rbp`) and stack pointer and transfers
control to the saved instruction pointer. -/
def ContextSwitcher.restore_context (cpu : Cpu) (pcb : PCB) : Cpu :=
  { cpu with
    rax := pcb.rax, rbx := pcb.rbx, rcx := pcb.rcx, rdx := pcb.rdx,
    rsi := pcb.rsi, rdi := pcb.rdi, rsp := pcb.rsp, rip := pcb.rip }

/-- `ContextSwitcher::switch_to(pcb)`: saves the current CPU state into a
freshly defaulted local PCB — which is immediately discarded, exactly as in
the source, where `current_pcb` is a local that goes out of scope — and
then restores the target PCB's context. -/
def ContextSwitcher.switch_to (cpu : Cpu) (pcb : PCB) : Cpu :=
  let current_pcb := ContextSwitcher.save_context cpu PCB.default
  let _ := current_pcb
  ContextSwitcher.restore_context cpu pcb

/-! ## Operation sequences over the `src/process_manager.rs` manager -/

/-- One call into the process manager: spawn a kernel thread (with its
entry point and allocated stack address), exit a pid, or reap zombies. -/
inductive Op where
  | spawn (entry stack : Nat)
  | exit (p : Nat)
  | reap
deriving DecidableEq, Repr

/-- Run a sequence of operations, collecting the PID returned by each
spawn, in call order. -/
def runOps : ProcessManager → List Op → ProcessManager × List Nat
  | m, [] => (m, [])
  | m, Op.spawn e s :: ops =>
    let r := m.spawn_kernel_thread e s
    let rest := runOps r.2 ops
    (rest.1, r.1 :: rest.2)
  | m, Op.exit p :: ops => runOps (m.exit p).2 ops
  | m, Op.reap :: ops => runOps (m.reap_zombies).2 ops

/-- The PIDs handed out by the spawns of an operation sequence. -/
def issuedPids (m : ProcessManager) (ops : List Op) : List Nat :=
  (runOps m ops).2

/-- Number of spawn operations in a sequence. -/
def spawnCount : List Op → Nat
  | [] => 0
  | Op.spawn _ _ :: ops => spawnCount ops + 1
  | Op.exit _ :: ops => spawnCount ops
  | Op.reap :: ops => spawnCount ops

lemma spawn_next_pid (m : ProcessManager) (e s : Nat) :
    ((m.spawn_kernel_thread e s).2).next_pid = (m.next_pid + 1) % u32Mod := by
  simp only [ProcessManager.spawn_kernel_thread]
  split <;> rfl

lemma spawn_fst (m : ProcessManager) (e s : Nat) :
    (m.spawn_kernel_thread e s).1 = m.next_pid := rfl

lemma exit_next_pid (m : ProcessManager) (p : Nat) :
    ((m.exit p).2).next_pid = m.next_pid := by
  simp only [ProcessManager.exit]
  cases m.processes.findIdx? (fun pcb => pcb.pid == p) with
  | none => rfl
  | some index =>
    simp only []
    split
    · split <;> rfl
    · rfl

lemma reap_next_pid (m : ProcessManager) :
    ((m.reap_zombies).2).next_pid = m.next_pid := rfl

/-- The spawns of any operation sequence hand out the PIDs
`next_pid, next_pid + 1, ...`, one per spawn, in order, each reduced
modulo `2^32` — the `j`-th spawn returns `(next_pid + j) % 2^32`. -/
lemma runOps_pids_mod :
    ∀ (ops : List Op) (m : ProcessManager), m.next_pid < u32Mod →
      (runOps m ops).2 =
        (List.range (spawnCount ops)).map (fun j => (m.next_pid + j) % u32Mod)
  | [], m, _ => rfl
  | Op.spawn e s :: ops, m, hm => by
    have hm' : ((m.spawn_kernel_thread e s).2).next_pid < u32Mod := by
      rw [spawn_next_pid]
      exact Nat.mod_lt _ (by norm_num [u32Mod])
    simp only [runOps, spawnCount]
    rw [runOps_pids_mod ops _ hm', spawn_next_pid, spawn_fst,
      List.range_succ_eq_map, List.map_cons, List.map_map]
    congr 1
    · rw [Nat.add_zero, Nat.mod_eq_of_lt hm]
    · apply List.map_eq_map_iff.mpr
      intro j _
      simp only [Function.comp, Nat.succ_eq_add_one]
      rw [Nat.mod_add_mod]
      congr 1
      omega
  | Op.exit p :: ops, m, hm => by
    simp only [runOps, spawnCount]
    rw [runOps_pids_mod ops _ (by rw [exit_next_pid]; exact hm), exit_next_pid]
  | Op.reap :: ops, m, hm => by
    simp only [runOps, spawnCount]
    rw [runOps_pids_mod ops _ (by rw [reap_next_pid]; exact hm), reap_next_pid]

/-- Below the wrap threshold the issued PIDs are exactly
`1, 2, ..., spawnCount`. -/
lemma issued_pids_no_wrap (ops : List Op)
    (hsc : spawnCount ops ≤ u32Mod - 1) :
    issuedPids ProcessManager.new.init ops =
      List.range' 1 (spawnCount ops) := by
  rw [issuedPids, runOps_pids_mod ops _ (by norm_num [u32Mod, ProcessManager.new,
    ProcessManager.init]), List.range'_eq_map_range]
  apply List.map_eq_map_iff.mpr
  intro j hj
  rw [List.mem_range] at hj
  have : ProcessManager.new.init.next_pid = 1 := rfl
  rw [this]
  rw [Nat.mod_eq_of_lt (by simp only [u32Mod] at hsc ⊢; omega)]

/-- C4 (claim statement check on a small input). -/
example :
    issuedPids ProcessManager.new.init
      [Op.spawn 1 2, Op.exit 1, Op.spawn 3 4, Op.reap, Op.spawn 5 6] =
    [1, 2, 3] := by decide

/-- A spawn-only sequence one longer than the `u32` range of the PID
counter. -/
def opsWrapPlus : List Op := List.replicate (u32Mod + 1) (Op.spawn 0 0)

lemma spawnCount_replicate :
    ∀ k e s, spawnCount (List.replicate k (Op.spawn e s)) = k
  | 0, _, _ => rfl
  | k + 1, e, s => by
    simp only [List.replicate_succ, spawnCount, spawnCount_replicate k e s]

/-- **C4 counterexample** — the claim quantifies over *all* operation
sequences, but `next_pid` is a `u32`: on the concrete sequence of
`2^32 + 1` spawns the counter wraps, the first and the `2^32 + 1`-st spawn
both return PID 1, and the issued-PID list has a duplicate — PIDs are
neither strictly increasing nor unique. -/
theorem c4_counterexample :
    ¬ (issuedPids ProcessManager.new.init opsWrapPlus).Nodup := by
  intro hnd
  rw [issuedPids, runOps_pids_mod opsWrapPlus _ (by norm_num [u32Mod,
    ProcessManager.new, ProcessManager.init])] at hnd
  rw [opsWrapPlus, spawnCount_replicate] at hnd
  have hlen : ((List.range (u32Mod + 1)).map
      (fun j => (ProcessManager.new.init.next_pid + j) % u32Mod)).length =
      u32Mod + 1 := by
    rw [List.length_map, List.length_range]
  have hb0 : 0 < ((List.range (u32Mod + 1)).map
      (fun j => (ProcessManager.new.init.next_pid + j) % u32Mod)).length := by
    omega
  have hbW : u32Mod < ((List.range (u32Mod + 1)).map
      (fun j => (ProcessManager.new.init.next_pid + j) % u32Mod)).length := by
    omega
  have h0 : ((List.range (u32Mod + 1)).map
      (fun j => (ProcessManager.new.init.next_pid + j) % u32Mod))[0] = 1 := by
    rw [List.getElem_map, List.getElem_range]
    norm_num [u32Mod, ProcessManager.new, ProcessManager.init]
  have hW : ((List.range (u32Mod + 1)).map
      (fun j => (ProcessManager.new.init.next_pid + j) % u32Mod))[u32Mod] =
      1 := by
    rw [List.getElem_map, List.getElem_range]
    norm_num [u32Mod, ProcessManager.new, ProcessManager.init]
  have h0W : (0 : Nat) = u32Mod :=
    (List.Nodup.getElem_inj_iff hnd).mp (h0.trans hW.symm)
  norm_num [u32Mod] at h0W

/-- **C4 amended** — for every sequence of spawn, exit and reap operations
starting from an initialized process manager *with at most `2^32 - 1`
spawns*, the PIDs returned by the spawns are strictly increasing and no PID
is issued twice; beyond that the `u32` counter wraps and PIDs repeat (see
the counterexample). -/
theorem c4_pids_strictly_increasing (ops : List Op)
    (hsc : spawnCount ops ≤ u32Mod - 1) :
    List.Chain' (· < ·) (issuedPids ProcessManager.new.init ops) ∧
      (issuedPids ProcessManager.new.init ops).Nodup := by
  rw [issued_pids_no_wrap ops hsc]
  constructor
  · exact (List.pairwise_lt_range' _ _).chain'
  · exact List.nodup_range' _ _

/-- Witness for C4 (amended): a three-spawn sequence is far below the wrap
threshold and its PIDs are strictly increasing and duplicate-free. -/
theorem c4_witness :
    List.Chain' (· < ·) (issuedPids ProcessManager.new.init
        [Op.spawn 1 2, Op.exit 1, Op.spawn 3 4, Op.reap, Op.spawn 5 6]) ∧
      (issuedPids ProcessManager.new.init
        [Op.spawn 1 2, Op.exit 1, Op.spawn 3 4, Op.reap, Op.spawn 5 6]).Nodup :=
  c4_pids_strictly_increasing
    [Op.spawn 1 2, Op.exit 1, Op.spawn 3 4, Op.reap, Op.spawn 5 6]
    (by norm_num [spawnCount, u32Mod])

/-! ## PID bookkeeping inside the queue (claim C10) -/

lemma setStateAt_map_pid :
    ∀ (l : List ProcessControlBlock) (i : Nat) (st : ProcessState),
      (setStateAt l i st).map (fun pcb => pcb.pid) = l.map (fun pcb => pcb.pid)
  | [], _, _ => rfl
  | _ :: rest, 0, st => rfl
  | pcb :: rest, i + 1, st => by
    simp only [setStateAt, List.map_cons, setStateAt_map_pid rest i st]

lemma setStateAt_length :
    ∀ (l : List ProcessControlBlock) (i : Nat) (st : ProcessState),
      (setStateAt l i st).length = l.length
  | [], _, _ => rfl
  | _ :: rest, 0, st => rfl
  | pcb :: rest, i + 1, st => by
    simp only [setStateAt, List.length_cons, setStateAt_length rest i st]

/-- All PCBs in the queue carry pid 0. -/
def allPidsZero (m : ProcessManager) : Prop :=
  ∀ pcb ∈ m.processes, pcb.pid = 0

lemma spawn_allPidsZero (m : ProcessManager) (e s : Nat)
    (h : allPidsZero m) : allPidsZero ((m.spawn_kernel_thread e s).2) := by
  intro pcb hmem
  simp only [ProcessManager.spawn_kernel_thread] at hmem
  split at hmem <;>
    simp only [List.mem_append, List.mem_singleton] at hmem <;>
    rcases hmem with hmem | rfl <;> first
      | exact h _ hmem
      | rfl

lemma exit_allPidsZero (m : ProcessManager) (p : Nat)
    (h : allPidsZero m) : allPidsZero ((m.exit p).2) := by
  have key : ∀ (index : Nat) pcb,
      pcb ∈ setStateAt m.processes index ProcessState.Zombie → pcb.pid = 0 := by
    intro index pcb hmem
    have : pcb.pid ∈ (setStateAt m.processes index ProcessState.Zombie).map
        (fun pcb => pcb.pid) := List.mem_map_of_mem _ hmem
    rw [setStateAt_map_pid] at this
    rcases List.mem_map.mp this with ⟨q, hq, hqe⟩
    rw [← hqe]; exact h _ hq
  intro pcb hmem
  simp only [ProcessManager.exit] at hmem
  rcases hf : m.processes.findIdx? (fun pcb => pcb.pid == p) with _ | index <;>
    rw [hf] at hmem
  · exact h _ hmem
  · simp only [] at hmem
    split at hmem
    · split at hmem <;> exact key _ _ hmem
    · exact key _ _ hmem

lemma reapAux_keep_subset :
    ∀ (l : List ProcessControlBlock) (pcb : ProcessControlBlock),
      pcb ∈ (reapAux l).1 → pcb ∈ l
  | [], _, h => by cases h
  | q :: rest, pcb, h => by
    simp only [reapAux] at h
    split at h
    · exact List.mem_cons_of_mem _ (reapAux_keep_subset rest pcb h)
    · rcases List.mem_cons.mp h with rfl | h
      · exact List.mem_cons_self _ _
      · exact List.mem_cons_of_mem _ (reapAux_keep_subset rest pcb h)

lemma reap_allPidsZero (m : ProcessManager)
    (h : allPidsZero m) : allPidsZero ((m.reap_zombies).2) := by
  intro pcb hmem
  exact h _ (reapAux_keep_subset _ _ hmem)

lemma runOps_allPidsZero :
    ∀ (ops : List Op) (m : ProcessManager),
      allPidsZero m → allPidsZero (runOps m ops).1
  | [], m, h => h
  | Op.spawn e s :: ops, m, h =>
    runOps_allPidsZero ops _ (spawn_allPidsZero m e s h)
  | Op.exit p :: ops, m, h =>
    runOps_allPidsZero ops _ (exit_allPidsZero m p h)
  | Op.reap :: ops, m, h =>
    runOps_allPidsZero ops _ (reap_allPidsZero m h)

lemma exit_false_of_allPidsZero (m : ProcessManager) (v : Nat)
    (h : allPidsZero m) (hv : 1 ≤ v) : m.exit v = (false, m) := by
  have hnone : m.processes.findIdx? (fun pcb => pcb.pid == v) = none := by
    rw [List.findIdx?_eq_none_iff]
    intro pcb hmem
    have := h _ hmem
    simp [this]; omega
  simp only [ProcessManager.exit, hnone]

lemma runOps_append (ops1 ops2 : List Op) :
    ∀ m : ProcessManager,
      (runOps m (ops1 ++ ops2)).1 = (runOps (runOps m ops1).1 ops2).1 := by
  induction ops1 with
  | nil => intro m; rfl
  | cons op ops ih =>
    intro m
    cases op <;> simp only [List.cons_append, runOps] <;> exact ih _

/-- C10 (claim statement check on a small input): the spawned PCB keeps
pid 0 and a later exit with the returned PID 1 fails. -/
example :
    ((runOps ProcessManager.new.init [Op.spawn 9 9]).1.exit 1).1 = false := by
  decide

lemma spawn_processes_length (m : ProcessManager) (e s : Nat) :
    ((m.spawn_kernel_thread e s).2).processes.length =
      m.processes.length + 1 := by
  simp only [ProcessManager.spawn_kernel_thread]
  split <;> simp

lemma runOps_spawnRep_length :
    ∀ (k : Nat) (m : ProcessManager) (e s : Nat),
      (runOps m (List.replicate k (Op.spawn e s))).1.processes.length =
        m.processes.length + k
  | 0, _, _, _ => rfl
  | k + 1, m, e, s => by
    simp only [List.replicate_succ, runOps]
    rw [runOps_spawnRep_length k _ e s, spawn_processes_length]
    omega

/-- `exit` reports success whenever some queued PCB carries the pid. -/
lemma exit_fst_true (m : ProcessManager) (p i : Nat)
    (hf : m.processes.findIdx? (fun pcb => pcb.pid == p) = some i) :
    (m.exit p).1 = true := by
  simp only [ProcessManager.exit, hf]
  split
  · split <;> rfl
  · rfl

/-- The spawn-only sequence that makes the `u32` PID counter wrap exactly
once: `2^32` spawns. -/
def opsWrapExact : List Op := List.replicate u32Mod (Op.spawn 0 0)

/-- **C10 counterexample** — the claim says every PID returned by
`spawn_kernel_thread` is at least 1 and that `exit` with a returned PID
always returns `false`.  On the concrete sequence of `2^32` spawns the
`u32` counter wraps: the last spawn returns PID 0 — which equals the
default pid stored in every enqueued PCB — and `exit 0` on the resulting
manager finds a match and returns `true`. -/
theorem c10_counterexample :
    0 ∈ issuedPids ProcessManager.new.init opsWrapExact ∧
      ((runOps ProcessManager.new.init opsWrapExact).1.exit 0).1 = true := by
  constructor
  · rw [issuedPids, runOps_pids_mod opsWrapExact _ (by norm_num [u32Mod,
      ProcessManager.new, ProcessManager.init])]
    rw [opsWrapExact, spawnCount_replicate]
    rw [List.mem_map]
    refine ⟨u32Mod - 1, List.mem_range.mpr (by norm_num [u32Mod]), ?_⟩
    norm_num [u32Mod, ProcessManager.new, ProcessManager.init]
  · have hzero : allPidsZero (runOps ProcessManager.new.init opsWrapExact).1 :=
      runOps_allPidsZero _ _ (by intro pcb h; cases h)
    have hlen : (runOps ProcessManager.new.init opsWrapExact).1.processes.length =
        u32Mod := by
      rw [opsWrapExact, runOps_spawnRep_length]
      rfl
    rcases hp : (runOps ProcessManager.new.init opsWrapExact).1.processes
      with _ | ⟨pcb, rest⟩
    · rw [hp] at hlen
      norm_num [u32Mod] at hlen
    · have hpid : pcb.pid = 0 := hzero pcb (by rw [hp]; exact List.mem_cons_self _ _)
      refine exit_fst_true _ 0 0 ?_
      rw [hp, List.findIdx?_cons, if_pos (by simp [hpid])]

/-- **C10 amended** — `spawn_kernel_thread` never writes the PID it
returns into the PCB it enqueues: after any operation sequence every
queued PCB still carries the default pid 0.  As long as at most
`2^32 - 1` spawns have occurred the returned PIDs are all at least 1 and a
subsequent `exit` with any of them finds no matching PCB and returns
`false` leaving the manager unchanged; at the `2^32`-th spawn the `u32`
counter wraps to PID 0, which `exit` *does* match against the queue's
default pid-0 PCBs (see the counterexample). -/
theorem c10_spawn_pid_never_stored (ops1 ops2 : List Op) (v : Nat)
    (hsc : spawnCount ops1 ≤ u32Mod - 1)
    (hv : v ∈ issuedPids ProcessManager.new.init ops1) :
    1 ≤ v ∧
    (∀ pcb ∈ (runOps ProcessManager.new.init (ops1 ++ ops2)).1.processes,
        pcb.pid = 0) ∧
    (runOps ProcessManager.new.init (ops1 ++ ops2)).1.exit v =
      (false, (runOps ProcessManager.new.init (ops1 ++ ops2)).1) := by
  have hv1 : 1 ≤ v := by
    rw [issued_pids_no_wrap ops1 hsc] at hv
    rw [List.mem_range'_1] at hv
    exact hv.1
  have hzero : allPidsZero (runOps ProcessManager.new.init (ops1 ++ ops2)).1 :=
    runOps_allPidsZero _ _ (by intro pcb h; cases h)
  exact ⟨hv1, hzero, exit_false_of_allPidsZero _ _ hzero hv1⟩

/-- Witness for C10 (amended): `spawn` issues PID 1, and using it in `exit`
afterwards fails. -/
theorem c10_witness :
    1 ≤ 1 ∧
    (∀ pcb ∈ (runOps ProcessManager.new.init
        ([Op.spawn 9 9] ++ [Op.reap])).1.processes, pcb.pid = 0) ∧
    (runOps ProcessManager.new.init ([Op.spawn 9 9] ++ [Op.reap])).1.exit 1 =
      (false, (runOps ProcessManager.new.init ([Op.spawn 9 9] ++ [Op.reap])).1) :=
  c10_spawn_pid_never_stored [Op.spawn 9 9] [Op.reap] 1
    (by norm_num [spawnCount, u32Mod]) (by decide)

/-! ## Claim C6: state of a freshly spawned PCB -/

/-- **C6 counterexample** — the claim says every spawned PCR is enqueued in
`Ready` state; on the initialized manager, spawning one thread enqueues a
PCB in `Running` state, and `Running` is not `Ready`. -/
theorem c6_counterexample :
    ((ProcessManager.new.init.spawn_kernel_thread 100 200).2.processes.map
        (fun pcb => pcb.state)) = [ProcessState.Running] ∧
      ProcessState.Running ≠ ProcessState.Ready := by
  constructor
  · decide
  · decide

/-- **C6 amended** — every call to `spawn_kernel_thread` enqueues the new
PCB in `Running` state (the source comments call this
"mark thread as running"), not `Ready`. -/
theorem c6_spawn_enqueues_running (m : ProcessManager) (e s : Nat) :
    (((m.spawn_kernel_thread e s).2).processes.getLast?).map
        (fun pcb => pcb.state) = some ProcessState.Running := by
  simp only [ProcessManager.spawn_kernel_thread]
  split <;> simp

/-! ## Claim C5: what reaping removes -/

lemma reapAux_keep :
    ∀ l : List ProcessControlBlock,
      (reapAux l).1 = l.filter (fun pcb => !(pcb.state == ProcessState.Zombie))
  | [] => rfl
  | pcb :: rest => by
    simp only [reapAux, List.filter_cons]
    rcases h : pcb.state == ProcessState.Zombie with _ | _ <;>
      simp [h, reapAux_keep rest]

lemma reapAux_pids :
    ∀ l : List ProcessControlBlock,
      (reapAux l).2 =
        ((l.filter (fun pcb => pcb.state == ProcessState.Zombie)).map
          (fun pcb => pcb.pid)).reverse
  | [] => rfl
  | pcb :: rest => by
    simp only [reapAux, List.filter_cons]
    rcases h : pcb.state == ProcessState.Zombie with _ | _ <;>
      simp [h, reapAux_pids rest]

/-- A queue holding one `Terminated` PCB. -/
def mTerminated : ProcessManager :=
  { processes := [{ pid := 1, state := ProcessState.Terminated,
                    context := { rip := 0, rsp := 0 } }],
    current_index := 0, next_pid := 2 }

/-- **C5 counterexample** — the claim says `reap` removes every entry in
`Zombie` *or `Terminated`* state and returns their identifiers; on a queue
holding a single `Terminated` PCB, `reap_zombies` removes nothing and
returns no identifier. -/
theorem c5_counterexample :
    (mTerminated.reap_zombies).1 = [] ∧
      (mTerminated.reap_zombies).2.processes = mTerminated.processes ∧
      mTerminated.processes.map (fun pcb => pcb.state) =
        [ProcessState.Terminated] := by
  refine ⟨by decide, by decide, by decide⟩

/-- The scenario queue of the claim: pid 0 `Running`, pid 1 `Zombie`,
pid 2 `Ready`. -/
def mScenario : ProcessManager :=
  { processes :=
      [{ pid := 0, state := ProcessState.Running, context := { rip := 0, rsp := 0 } },
       { pid := 1, state := ProcessState.Zombie, context := { rip := 0, rsp := 0 } },
       { pid := 2, state := ProcessState.Ready, context := { rip := 0, rsp := 0 } }],
    current_index := 0, next_pid := 3 }

/-- **C5 amended** — `reap_zombies` removes exactly the entries whose state
is `Zombie` (entries in `Terminated` state are kept), returning their
identifiers in reverse queue order; all other entries stay.  On the queue
{pid 0 Running, pid 1 Zombie, pid 2 Ready} it removes only pid 1, returns
`[1]`, and the length drops from 3 to 2. -/
theorem c5_reap_removes_zombies (m : ProcessManager) :
    (m.reap_zombies).1 =
      ((m.processes.filter (fun pcb => pcb.state == ProcessState.Zombie)).map
        (fun pcb => pcb.pid)).reverse ∧
    (m.reap_zombies).2.processes =
      m.processes.filter (fun pcb => !(pcb.state == ProcessState.Zombie)) ∧
    (mScenario.reap_zombies).1 = [1] ∧
    (mScenario.reap_zombies).2.processes.map (fun pcb => pcb.pid) = [0, 2] ∧
    mScenario.processes.length = 3 ∧
    (mScenario.reap_zombies).2.processes.length = 2 := by
  refine ⟨reapAux_pids _, reapAux_keep _, by decide, by decide, by decide, by decide⟩

/-! ## Claim C1: exiting the current PCR -/

lemma setStateAt_get?_ne :
    ∀ (l : List ProcessControlBlock) (i : Nat) (st : ProcessState) (j : Nat),
      j ≠ i → (setStateAt l i st).get? j = l.get? j
  | [], _, _, _, _ => rfl
  | pcb :: rest, 0, st, 0, h => absurd rfl h
  | pcb :: rest, 0, st, j + 1, _ => rfl
  | pcb :: rest, i + 1, st, 0, _ => rfl
  | pcb :: rest, i + 1, st, j + 1, h => by
    simp only [setStateAt, List.get?_cons_succ]
    exact setStateAt_get?_ne rest i st j (by omega)

/-- Indices of the form `(start + i) % n` with `i < n` cover every residue
below `n`: the circular scan of `exit` visits every queue position. -/
lemma mod_coverage (start n j : Nat) (hj : j < n) :
    ∃ i, i < n ∧ (start + i) % n = j := by
  have hn : 0 < n := Nat.lt_of_le_of_lt (Nat.zero_le j) hj
  have hsn : start % n < n := Nat.mod_lt _ hn
  by_cases hle : start % n ≤ j
  · refine ⟨j - start % n, by omega, ?_⟩
    rw [Nat.add_mod, Nat.mod_eq_of_lt (show j - start % n < n by omega)]
    have h2 : start % n + (j - start % n) = j := by omega
    rw [h2, Nat.mod_eq_of_lt hj]
  · refine ⟨j + n - start % n, by omega, ?_⟩
    rw [Nat.add_mod, Nat.mod_eq_of_lt (show j + n - start % n < n by omega)]
    have h2 : start % n + (j + n - start % n) = j + n := by omega
    rw [h2, Nat.add_mod_right, Nat.mod_eq_of_lt hj]

/-- A manager running a single thread, pid 7, at the cursor. -/
def mSingle : ProcessManager :=
  { processes := [{ pid := 7, state := ProcessState.Running,
                    context := { rip := 0, rsp := 0 } }],
    current_index := 0, next_pid := 8 }

/-- **C1 counterexample** — the claim says that after `exit(p)` on the
current PCR the very next `current()` returns a *different*, non-`Zombie`
PCR (the idle pid-0 PCR as fallback).  With a single running thread of
pid 7 at the cursor, `exit 7` succeeds but the next `get_current` returns
the very same pid-7 PCR, now a `Zombie`: no replacement and no idle pid-0
PCR exists. -/
theorem c1_counterexample :
    (mSingle.exit 7).1 = true ∧
      ((mSingle.exit 7).2).get_current =
        some { pid := 7, state := ProcessState.Zombie,
               context := { rip := 0, rsp := 0 } } := by
  refine ⟨by decide, by decide⟩

/-- **C1 amended** — when `exit(p)` hits the PCR at the cursor, it marks
it `Zombie` and then moves the cursor to a `Ready` entry found by scanning
circularly from the next position, so that the very next `current()`
returns a `Ready` (hence different and non-`Zombie`) PCR — *provided some
other entry is in `Ready` state*.  When no other entry is `Ready`
(`Running`/`Blocked` entries are skipped too), the cursor falls back to
index 0, which may still hold the zombie itself; no idle pid-0 PCR is
guaranteed to exist. -/
theorem c1_exit_replaces_current (m : ProcessManager) (p i : Nat)
    (hfind : m.processes.findIdx? (fun pcb => pcb.pid == p) = some i)
    (hcur : i = m.current_index)
    (hready : ∃ j q, j ≠ i ∧ m.processes.get? j = some q ∧
        q.state = ProcessState.Ready) :
    (m.exit p).1 = true ∧
      ∃ q, ((m.exit p).2).get_current = some q ∧
        q.state = ProcessState.Ready := by
  subst hcur
  obtain ⟨j, q, hne, hget, hst⟩ := hready
  have hjlen : j < m.processes.length := by
    by_contra hc
    rw [List.get?_eq_none.mpr (Nat.le_of_not_lt hc)] at hget
    cases hget
  have hlen : (setStateAt m.processes m.current_index ProcessState.Zombie).length =
      m.processes.length := setStateAt_length _ _ _
  have hready' : readyAt (setStateAt m.processes m.current_index ProcessState.Zombie) j
      = true := by
    rw [readyAt, setStateAt_get?_ne _ _ _ _ hne, hget]
    simp [hst]
  simp only [ProcessManager.exit, hfind]
  have hcov := mod_coverage
    ((m.current_index + 1) %
      (setStateAt m.processes m.current_index ProcessState.Zombie).length)
    (setStateAt m.processes m.current_index ProcessState.Zombie).length j
    (by omega)
  obtain ⟨i0, hi0, hi0m⟩ := hcov
  split
  · split
    next i1 heq =>
      have hp0 := List.find?_some heq
      replace hp0 : readyAt (setStateAt m.processes m.current_index ProcessState.Zombie)
          (((m.current_index + 1) %
            (setStateAt m.processes m.current_index ProcessState.Zombie).length + i1) %
            (setStateAt m.processes m.current_index ProcessState.Zombie).length)
          = true := hp0
      have hp := hp0
      rcases hq' : (setStateAt m.processes m.current_index ProcessState.Zombie).get?
          (((m.current_index + 1) %
            (setStateAt m.processes m.current_index ProcessState.Zombie).length + i1) %
            (setStateAt m.processes m.current_index ProcessState.Zombie).length)
        with _ | q'
      · rw [readyAt, hq'] at hp
        cases hp
      · refine ⟨rfl, q', ?_, ?_⟩
        · rw [ProcessManager.get_current]
          rw [if_neg ?_]
          · exact hq'
          · simp only [List.isEmpty_iff]
            intro hnil
            rw [hnil] at hlen
            simp at hlen
            omega
        · rw [readyAt, hq'] at hp
          exact beq_iff_eq.mp hp
    next heq =>
      exfalso
      rw [List.find?_eq_none] at heq
      exact heq i0 (List.mem_range.mpr hi0) (by rw [hi0m]; simp [hready'])
  · next hif => exact absurd trivial hif

/-- A manager with two threads: pid 7 `Running` at the cursor and pid 8
`Ready` behind it. -/
def mTwo : ProcessManager :=
  { processes :=
      [{ pid := 7, state := ProcessState.Running, context := { rip := 0, rsp := 0 } },
       { pid := 8, state := ProcessState.Ready, context := { rip := 1, rsp := 1 } }],
    current_index := 0, next_pid := 9 }

/-- Witness for C1 (amended): two threads, pid 7 current and pid 8 ready;
exiting pid 7 makes `current()` report the ready PCR. -/
theorem c1_witness :
    (mTwo.exit 7).1 = true ∧
      ∃ q, ((mTwo.exit 7).2).get_current = some q ∧
        q.state = ProcessState.Ready :=
  c1_exit_replaces_current mTwo 7 0 (by decide) (by decide)
    ⟨1, { pid := 8, state := ProcessState.Ready,
          context := { rip := 1, rsp := 1 } }, by decide, by decide, by decide⟩

/-! ## Claim C3: validity of the cursor -/

/-- The cursor invariant of the spec: on a non-empty queue the cursor is an
in-bounds index (on the empty queue it is unused). -/
def cursorInv (m : ProcessManager) : Prop :=
  m.processes = [] ∨ m.current_index < m.processes.length

instance (m : ProcessManager) : Decidable (cursorInv m) := by
  unfold cursorInv; infer_instance

/-- A queue satisfying the cursor invariant whose cursor sits behind a
zombie: pid 1 `Running` at index 0, pid 2 `Zombie` at index 1, cursor 1. -/
def mStale : ProcessManager :=
  { processes :=
      [{ pid := 1, state := ProcessState.Running, context := { rip := 0, rsp := 0 } },
       { pid := 2, state := ProcessState.Zombie, context := { rip := 0, rsp := 0 } }],
    current_index := 1, next_pid := 3 }

/-- **C3 counterexample** — the claim says every queue operation preserves
cursor validity and `current()` on a non-empty queue never indexes out of
bounds.  `reap_zombies` never adjusts the cursor: starting from a state
satisfying the invariant (cursor 1 on a two-entry queue), reaping leaves a
non-empty one-entry queue with cursor 1 — out of bounds — and the next
`current()` indexes out of bounds (modelled as `none` on a non-empty
queue, the Rust vector indexing panic). -/
theorem c3_counterexample :
    cursorInv mStale ∧
      ¬ cursorInv ((mStale.reap_zombies).2) ∧
      (mStale.reap_zombies).2.processes ≠ [] ∧
      ((mStale.reap_zombies).2).get_current = none := by
  refine ⟨by decide, by decide, by decide, by decide⟩

/-- **C3 amended** — `spawn_kernel_thread` and `exit` preserve the cursor
invariant, and from an invariant state `current()` on a non-empty queue is
in bounds; `reap_zombies` does *not* preserve the invariant (see the
counterexample): it removes entries without adjusting the cursor. -/
theorem c3_cursor_invariant (m : ProcessManager) (e s p : Nat)
    (hinv : cursorInv m) :
    cursorInv ((m.spawn_kernel_thread e s).2) ∧
      cursorInv ((m.exit p).2) ∧
      (m.processes ≠ [] → ((m.get_current).isSome = true)) := by
  refine ⟨?_, ?_, ?_⟩
  · simp only [ProcessManager.spawn_kernel_thread]
    split
    next hemp =>
      right
      simp only [List.length_append, List.length_singleton]
      rw [List.isEmpty_iff] at hemp
      simp [hemp]
    next hemp =>
      right
      simp only [List.length_append, List.length_singleton]
      rw [List.isEmpty_iff] at hemp
      rcases hinv with h | h
      · exact absurd h hemp
      · omega
  · rcases hf : m.processes.findIdx? (fun pcb => pcb.pid == p) with _ | index
    · simpa only [ProcessManager.exit, hf] using hinv
    · have hidx : index < m.processes.length := by
        rw [List.findIdx?_eq_some_iff_getElem] at hf
        exact hf.1
      have hlen : (setStateAt m.processes index ProcessState.Zombie).length =
          m.processes.length := setStateAt_length _ _ _
      have hpos : 0 < (setStateAt m.processes index ProcessState.Zombie).length := by
        omega
      simp only [ProcessManager.exit, hf]
      split
      · split
        next i1 heq =>
          right
          simpa only [hlen] using Nat.mod_lt _ hpos
        next heq =>
          right
          dsimp only
          omega
      · right
        dsimp only
        rcases hinv with h | h
        · rw [h] at hidx; simp at hidx
        · omega
  · intro hne
    rcases hinv with h | h
    · exact absurd h hne
    · rw [ProcessManager.get_current, if_neg (by simpa [List.isEmpty_iff] using hne)]
      rcases hg : m.processes.get? m.current_index with _ | q
      · rw [List.get?_eq_none] at hg
        omega
      · rfl

/-- Witness for C3 (amended): the invariant survives a spawn and an exit on
a concrete two-entry queue, and `current()` is in bounds. -/
theorem c3_witness :
    cursorInv ((mTwo.spawn_kernel_thread 5 6).2) ∧
      cursorInv ((mTwo.exit 7).2) ∧
      (mTwo.processes ≠ [] → ((mTwo.get_current).isSome = true)) :=
  c3_cursor_invariant mTwo 5 6 7 (by decide)

/-! ## Claim C2: what the round-robin selection can return -/

/-- A ready PCB with pid 1. -/
def pcbReady : PCB := { PCB.default with pid := 1, rip := 10 }

/-- A zombie PCB with pid 2. -/
def pcbZombie : PCB :=
  { PCB.default with pid := 2, rip := 20, state := ProcState.Zombie }

/-- A scheduler whose queue holds the ready pid-1 PCB (current) followed by
the zombie pid-2 PCB. -/
def schedWithZombie : RoundRobinScheduler :=
  { current_process := some pcbReady, ready_queue := [pcbReady, pcbZombie] }

/-- **C2 counterexample** — the claim says the next-entry selection never
returns a `Zombie` entry when the queue holds at least one `Ready`/`Running`
entry.  On the queue [pid 1 Ready (current), pid 2 Zombie],
`get_next_process` returns the zombie pid-2 PCB. -/
theorem c2_counterexample :
    pcbReady.state = ProcState.Ready ∧
      pcbReady ∈ schedWithZombie.ready_queue ∧
      (schedWithZombie.get_next_process).1 = some pcbZombie ∧
      pcbZombie.state = ProcState.Zombie := by
  refine ⟨by decide, by decide, by decide, by decide⟩

/-- **C2 amended** — `get_next_process` performs no state filtering at all:
on a non-empty queue it removes and returns the entry one position after
the current process (position 0 when the current process is not in the
queue), whatever that entry's state; in particular it can return a
`Zombie` even when a `Ready` entry is present (see the counterexample).
What does hold: it returns `none` only on the empty queue, and otherwise
returns a member of the queue, shrinking the queue by one. -/
theorem c2_advance_returns_member (s : RoundRobinScheduler)
    (hne : s.ready_queue ≠ []) :
    ∃ p, (s.get_next_process).1 = some p ∧ p ∈ s.ready_queue ∧
      (s.get_next_process).2.ready_queue.length + 1 = s.ready_queue.length := by
  have hlen : 0 < s.ready_queue.length := List.length_pos.mpr hne
  have hemp : s.ready_queue.isEmpty = false := by
    simpa [List.isEmpty_iff] using hne
  simp only [RoundRobinScheduler.get_next_process, hemp, Bool.false_eq_true,
    if_false]
  have hklt : (match s.ready_queue.findIdx? (fun q =>
        q == s.current_process.getD PCB.default) with
      | some i => i + 1
      | none => 0) % s.ready_queue.length < s.ready_queue.length :=
    Nat.mod_lt _ hlen
  rcases hg : s.ready_queue.get?
      ((match s.ready_queue.findIdx? (fun q =>
          q == s.current_process.getD PCB.default) with
        | some i => i + 1
        | none => 0) % s.ready_queue.length) with _ | p
  · exfalso
    rw [List.get?_eq_none] at hg
    omega
  · refine ⟨p, hg, List.get?_mem hg, ?_⟩
    dsimp only
    rw [List.length_eraseIdx, if_pos hklt]
    omega

/-- Witness for C2 (amended): on the concrete two-entry queue the selection
returns a queue member and shrinks the queue. -/
theorem c2_witness :
    ∃ p, (schedWithZombie.get_next_process).1 = some p ∧
      p ∈ schedWithZombie.ready_queue ∧
      (schedWithZombie.get_next_process).2.ready_queue.length + 1 =
        schedWithZombie.ready_queue.length :=
  c2_advance_returns_member schedWithZombie (by decide)

/-! ## Claim C7: adding a PCR with a duplicate identifier -/

/-- A PCB with pid 1 and `rax = 0`. -/
def pcbDupA : PCB := { PCB.default with pid := 1 }

/-- A different PCB that reuses pid 1 (`rax = 5`). -/
def pcbDupB : PCB := { PCB.default with pid := 1, rax := 5 }

/-- **C7 counterexample** — the claim says `add` fails fatally whenever a
PCR with the same identifier already exists.  Adding two PCBs that share
pid 1 but differ in a register leaves *both* in the queue: the collision is
neither detected nor fatal, and the queue now holds two entries with the
same identifier. -/
theorem c7_counterexample :
    pcbDupA.pid = pcbDupB.pid ∧
      (((RoundRobinScheduler.new.add pcbDupA).add pcbDupB).ready_queue.map
        (fun q => q.pid)) = [1, 1] := by
  refine ⟨by decide, by decide⟩

/-- **C7 amended** — `add` forces the PCR's state to `Ready` and appends
it, unless an all-field-identical PCB is already in the queue, in which
case it silently does nothing.  Identifier collisions alone are not
detected, never fatal, and two PCRs with equal pid but different registers
are both kept. -/
theorem c7_add_appends_or_ignores (s : RoundRobinScheduler) (pcb : PCB) :
    ({ pcb with state := ProcState.Ready } ∈ s.ready_queue →
        s.add pcb = s) ∧
      ({ pcb with state := ProcState.Ready } ∉ s.ready_queue →
        (s.add pcb).ready_queue =
          s.ready_queue ++ [{ pcb with state := ProcState.Ready }]) := by
  constructor
  · intro hmem
    rw [RoundRobinScheduler.add, if_pos (List.elem_iff.mpr hmem)]
  · intro hmem
    rw [RoundRobinScheduler.add,
      if_neg (fun hc => hmem (List.elem_iff.mp hc))]

/-- Witness for C7 (amended): re-adding an identical PCB is a silent no-op,
and adding a fresh one appends it. -/
theorem c7_witness :
    ((RoundRobinScheduler.new.add pcbDupA).add pcbDupA =
        RoundRobinScheduler.new.add pcbDupA) ∧
      ((RoundRobinScheduler.new.add pcbDupA).add pcbDupB).ready_queue =
        (RoundRobinScheduler.new.add pcbDupA).ready_queue ++
          [{ pcbDupB with state := ProcState.Ready }] :=
  ⟨(c7_add_appends_or_ignores (RoundRobinScheduler.new.add pcbDupA) pcbDupA).1
      (by decide),
    (c7_add_appends_or_ignores (RoundRobinScheduler.new.add pcbDupA) pcbDupB).2
      (by decide)⟩

/-! ## Claim C8: the context-switch round-trip law -/

/-- A live CPU state: `rax = 1`, `rip = 100`, all other registers zero. -/
def cpuStart : Cpu :=
  { rax := 1, rbx := 0, rcx := 0, rdx := 0, rsi := 0, rdi := 0, rbp := 0,
    rsp := 0, rip := 100, cs := 0, ds := 0, es := 0, fs := 0, gs := 0, ss := 0 }

/-- The `old` context of the round trip: the all-zero PCB. -/
def ctxOld : PCB := PCB.default

/-- The `new` context of the round trip: all-zero except `rax = 2`. -/
def ctxNew : PCB := { PCB.default with rax := 2 }

/-- **C8 (code bug)** — the round-trip law demands that
`switch(old, new)` followed by `switch(new, old)` restore the pre-switch
register state bit-for-bit.  The source's `switch_to` saves the executing
context into a freshly defaulted local PCB that is immediately discarded,
so the round trip lands on `old`'s stale contents instead: starting from
`rax = 1, rip = 100`, switching to `new` and back to `old` leaves
`rax = 0, rip = 0` — the pre-switch state is lost, refuting the law on
this concrete input. -/
theorem c8_round_trip_lost :
    (ContextSwitcher.switch_to (ContextSwitcher.switch_to cpuStart ctxNew) ctxOld)
        ≠ cpuStart ∧
      (ContextSwitcher.switch_to
        (ContextSwitcher.switch_to cpuStart ctxNew) ctxOld).rax = 0 ∧
      (ContextSwitcher.switch_to
        (ContextSwitcher.switch_to cpuStart ctxNew) ctxOld).rip = 0 ∧
      cpuStart.rax = 1 ∧ cpuStart.rip = 100 := by
  refine ⟨by decide, by decide, by decide, by decide, by decide⟩


/-! ## Claim C9: round-robin fairness over N schedule calls -/

/-- The element at an index of a `Nodup` list does not survive erasing that
index. -/
lemma not_mem_eraseIdx_self {α : Type} (l : List α) (i : Nat)
    (h : i < l.length) (hnd : l.Nodup) : l[i] ∉ l.eraseIdx i := by
  have h1 : l.take i ++ l[i] :: l.drop (i + 1) = l := by
    rw [List.get_drop_eq_drop, List.take_append_drop]
  have hperm :=
    @List.perm_middle _ (l[i]) (l.take i) (l.drop (i + 1))
  rw [h1] at hperm
  rw [List.eraseIdx_eq_take_drop_succ]
  exact (List.nodup_cons.mp (hperm.nodup hnd)).1

/-- One scheduler step when the recorded current process matches no queue
entry: the head of the queue is removed and returned. -/
lemma sched_step_head (cp : Option PCB) (h : PCB) (t : List PCB)
    (hcur : ∀ x ∈ h :: t, (x == cp.getD PCB.default) = false) :
    RoundRobinScheduler.get_next_process
        { current_process := cp, ready_queue := h :: t } =
      (some h, { current_process := cp, ready_queue := t }) := by
  have hnone : (h :: t).findIdx? (fun q => q == cp.getD PCB.default) = none :=
    List.findIdx?_eq_none_iff.mpr hcur
  simp [RoundRobinScheduler.get_next_process, hnone]

/-- One manager schedule step in the same situation: the head is removed,
returned, and made current. -/
lemma step_head (cpcb cp : Option PCB) (h : PCB) (t : List PCB)
    (hcur : ∀ x ∈ h :: t, (x == cp.getD PCB.default) = false) :
    ProcManager.get_next_process
        { current_pcb := cpcb,
          scheduler := { current_process := cp, ready_queue := h :: t } } =
      (some h,
        { current_pcb := some h,
          scheduler := { current_process := some h, ready_queue := t } }) := by
  simp [ProcManager.get_next_process, sched_step_head cp h t hcur,
    RoundRobinScheduler.set_current]

/-- One scheduler step when the recorded current process sits at index `i`
of the queue: the entry at `(i + 1) mod length` is removed and returned. -/
lemma sched_step_found (cp : Option PCB) (l : List PCB) (i : Nat)
    (hfi : l.findIdx? (fun q => q == cp.getD PCB.default) = some i)
    (hlt : (i + 1) % l.length < l.length) :
    RoundRobinScheduler.get_next_process
        { current_process := cp, ready_queue := l } =
      (some l[(i + 1) % l.length],
        { current_process := cp,
          ready_queue := l.eraseIdx ((i + 1) % l.length) }) := by
  have hne : l ≠ [] := by
    intro hnil
    rw [hnil] at hlt
    simp at hlt
  have hemp : l.isEmpty = false := by simpa [List.isEmpty_iff] using hne
  simp only [RoundRobinScheduler.get_next_process, hemp, Bool.false_eq_true,
    if_false, hfi]
  rw [List.get?_eq_getElem?, List.getElem?_eq_getElem hlt]

/-- One manager schedule step in the same situation. -/
lemma step_found (cpcb cp : Option PCB) (l : List PCB) (i : Nat)
    (hfi : l.findIdx? (fun q => q == cp.getD PCB.default) = some i)
    (hlt : (i + 1) % l.length < l.length) :
    ProcManager.get_next_process
        { current_pcb := cpcb,
          scheduler := { current_process := cp, ready_queue := l } } =
      (some l[(i + 1) % l.length],
        { current_pcb := some l[(i + 1) % l.length],
          scheduler :=
            { current_process := some l[(i + 1) % l.length],
              ready_queue := l.eraseIdx ((i + 1) % l.length) } }) := by
  simp [ProcManager.get_next_process, sched_step_found cp l i hfi hlt,
    RoundRobinScheduler.set_current]

/-- Draining run: when the recorded current process matches no queue entry
and the queue entries are pairwise distinct, running as many schedule calls
as there are entries returns exactly the queue, in order. -/
lemma runSched_drain :
    ∀ (l : List PCB) (cpcb cp : Option PCB),
      l.Nodup →
      (∀ x ∈ l, (x == cp.getD PCB.default) = false) →
      (runSched
        { current_pcb := cpcb,
          scheduler := { current_process := cp, ready_queue := l } }
        l.length).1 = l
  | [], _, _, _, _ => rfl
  | h :: t, cpcb, cp, hnd, hcur => by
    have hstep := step_head cpcb cp h t hcur
    have hmem : h ∉ t := (List.nodup_cons.mp hnd).1
    have hrec := runSched_drain t (some h) (some h)
      (List.nodup_cons.mp hnd).2
      (fun x hx => beq_eq_false_iff_ne.mpr
        (fun hxe => hmem ((show x = h from hxe) ▸ hx)))
    simp only [List.length_cons, runSched, hstep]
    rw [hrec]

/-- C9 (claim statement check on a small input): three distinct eligible
PCBs, three schedule calls, each selected exactly once. -/
example :
    (runSched (initialSched [pcbReady, { PCB.default with pid := 2 },
      { PCB.default with pid := 3 }]) 3).1.map (fun q => q.pid) = [1, 2, 3] := by
  decide

/-- **C9** — given a queue of `N` pairwise-distinct eligible
(`Ready`/`Running`) PCRs and no blocking or exiting, `N` consecutive
schedule calls (`ProcessManager::get_next_process` of `src/src/process.rs`)
select each of the `N` PCRs exactly once: the list of returned PCRs is a
permutation of the queue, which — the queue having no duplicates — selects
no PCR twice and skips none. -/
theorem c9_round_robin_fair (l : List PCB) (hnd : l.Nodup)
    (helig : ∀ p ∈ l,
      p.state = ProcState.Ready ∨ p.state = ProcState.Running) :
    ((runSched (initialSched l) l.length).1).Perm l ∧
      (PCB.default ∉ l → (runSched (initialSched l) l.length).1 = l) := by
  constructor
  case right =>
    intro hd
    simp only [initialSched]
    exact runSched_drain l none none hnd
      (fun x hx => beq_eq_false_iff_ne.mpr
        (fun hxe => hd ((show x = PCB.default from hxe) ▸ hx)))
  simp only [initialSched]
  by_cases hd : PCB.default ∈ l
  · have hlpos : 0 < l.length := List.length_pos.mpr (List.ne_nil_of_mem hd)
    rcases hfi : l.findIdx? (fun q => q == PCB.default) with _ | i
    · exfalso
      rw [List.findIdx?_eq_none_iff] at hfi
      have := hfi _ hd
      simp at this
    · have hklt : (i + 1) % l.length < l.length := Nat.mod_lt _ hlpos
      have hstep := step_found none none l i hfi hklt
      obtain ⟨n, hn⟩ : ∃ n, l.length = n + 1 := ⟨l.length - 1, by omega⟩
      have hlen : (l.eraseIdx ((i + 1) % l.length)).length = n := by
        rw [List.length_eraseIdx, if_pos hklt]
        omega
      have hnmem := not_mem_eraseIdx_self l ((i + 1) % l.length) hklt hnd
      have hrest := runSched_drain (l.eraseIdx ((i + 1) % l.length))
        (some l[(i + 1) % l.length]) (some l[(i + 1) % l.length])
        ((List.eraseIdx_sublist l ((i + 1) % l.length)).nodup hnd)
        (fun x hx => beq_eq_false_iff_ne.mpr
          (fun hxe => hnmem
            ((show x = l[(i + 1) % l.length] from hxe) ▸ hx)))
      rw [hlen] at hrest
      rw [hn]
      simp only [runSched, hstep]
      rw [hrest]
      have h1 : l.take ((i + 1) % l.length) ++
          l[(i + 1) % l.length] :: l.drop ((i + 1) % l.length + 1) = l := by
        rw [List.get_drop_eq_drop, List.take_append_drop]
      have hperm := @List.perm_middle _ (l[(i + 1) % l.length])
        (l.take ((i + 1) % l.length))
        (l.drop ((i + 1) % l.length + 1))
      rw [h1] at hperm
      rw [List.eraseIdx_eq_take_drop_succ]
      exact hperm.symm
  · have hdrain := runSched_drain l none none hnd
      (fun x hx => beq_eq_false_iff_ne.mpr
        (fun hxe => hd ((show x = PCB.default from hxe) ▸ hx)))
    rw [hdrain]

/-- Witness for C9: two distinct eligible PCBs, two schedule calls, output
a permutation of the queue. -/
theorem c9_witness :
    ((runSched (initialSched [pcbReady, { PCB.default with pid := 2 }]) 2).1).Perm
        [pcbReady, { PCB.default with pid := 2 }] ∧
      (PCB.default ∉ [pcbReady, { PCB.default with pid := 2 }] →
        (runSched (initialSched [pcbReady, { PCB.default with pid := 2 }]) 2).1 =
          [pcbReady, { PCB.default with pid := 2 }]) :=
  c9_round_robin_fair [pcbReady, { PCB.default with pid := 2 }]
    (by decide) (by decide)
